import Mathlib

/-!
Shallow embedding of the `as-slice` crate (`src/lib.rs`).

The crate defines two traits:

* `AsSlice`   with associated type `Element` and method
  `fn as_slice(&self) -> &[Self::Element]`;
* `AsMutSlice : AsSlice` with method
  `fn as_mut_slice(&mut self) -> &mut [Self::Element]`.

and the impls:

* `impl AsSlice for &'a S where S : AsSlice` (delegates via `(**self)`),
* `impl AsSlice for &'a mut S where S : AsSlice` (delegates),
* `impl AsMutSlice for &'a mut S where S : AsMutSlice` (delegates),
* `impl AsSlice for [T]` (`self`), `impl AsMutSlice for [T]` (`self`),
* `impl AsSlice for [T; N]` (`self`), `impl AsMutSlice for [T; N]` (`self`).

Rust slices `[T]` are embedded as `List T`; fixed-size arrays `[T; N]` as
`RustArray T N` (a list of elements together with a proof that its length is
`N`); immutable references `&S` as `Ref S` and mutable references `&mut S`
as `MutRef S` (wrappers holding the referent's value).

A returned `&[T]` view is embedded as the `List` of elements it exposes.
A returned `&mut [T]` view is embedded by its two capabilities: reading its
contents (`as_mut_slice : S → List E`) and writing one element through it
(`write_at : S → Nat → E → S`, giving the receiver's new state after the
in-place write `view[i] = v`; Rust mutation through the view is a sequence
of such element writes).  Methods taking `&self` leave the receiver's state
unchanged; `as_slice_st` and `as_mut_slice_st` make this state passing
explicit.
-/

set_option autoImplicit false

universe u v

/-- Embedding of the trait `AsSlice`: `E` is the associated type `Element`,
`as_slice` the method `fn as_slice(&self) -> &[Self::Element]`. -/
class AsSlice (S : Type u) (E : outParam (Type v)) : Type (max u v) where
  as_slice : S → List E

/-- Embedding of the trait `AsMutSlice : AsSlice` (the supertrait bound is
the `extends`): `as_mut_slice` gives the contents readable through the
mutable view returned by `fn as_mut_slice(&mut self)`, and `write_at s i v`
is the receiver's state after writing `v` at index `i` through that view. -/
class AsMutSlice (S : Type u) (E : outParam (Type v)) extends AsSlice S E where
  as_mut_slice : S → List E
  write_at : S → Nat → E → S

/-- Embedding of the Rust fixed-size array `[T; n]`: its elements as a list,
with the compile-time length invariant carried as a proof. -/
structure RustArray (T : Type u) (n : Nat) : Type u where
  data : List T
  len_eq : data.length = n

/-- Embedding of an immutable reference `&S`: it holds (a view of) the
referent's value. -/
structure Ref (S : Type u) : Type u where
  deref : S

/-- Embedding of a mutable reference `&mut S`. -/
structure MutRef (S : Type u) : Type u where
  deref : S

/-- `impl<T> AsSlice for [T]`: `fn as_slice(&self) -> &[T] { self }`. -/
instance instAsSliceList {T : Type u} : AsSlice (List T) T where
  as_slice s := s

/-- `impl<T> AsMutSlice for [T]`: `fn as_mut_slice(&mut self) -> &mut [T] { self }`.
The mutable view is the whole slice, so writing index `i` through it writes
index `i` of the slice. -/
instance instAsMutSliceList {T : Type u} : AsMutSlice (List T) T where
  as_mut_slice s := s
  write_at s i v := s.set i v

/-- `impl<T, const N: usize> AsSlice for [T; N]`: `{ self }` (the array
unsize-coerced to the slice of its `N` elements). -/
instance instAsSliceRustArray {T : Type u} {n : Nat} : AsSlice (RustArray T n) T where
  as_slice a := a.data

/-- `impl<T, const N: usize> AsMutSlice for [T; N]`: `{ self }`; writing
through the view writes the corresponding array element in place (the
length is unchanged, so the invariant is preserved). -/
instance instAsMutSliceRustArray {T : Type u} {n : Nat} : AsMutSlice (RustArray T n) T where
  as_mut_slice a := a.data
  write_at a i v := ⟨a.data.set i v, by rw [List.length_set]; exact a.len_eq⟩

/-- `impl<'a, S> AsSlice for &'a S where S: ?Sized + AsSlice`:
`fn as_slice(&self) { (**self).as_slice() }`. -/
instance instAsSliceRef {S : Type u} {E : Type v} [AsSlice S E] : AsSlice (Ref S) E where
  as_slice r := AsSlice.as_slice r.deref

/-- `impl<'a, S> AsSlice for &'a mut S where S: ?Sized + AsSlice`:
`fn as_slice(&self) { (**self).as_slice() }`. -/
instance instAsSliceMutRef {S : Type u} {E : Type v} [AsSlice S E] : AsSlice (MutRef S) E where
  as_slice r := AsSlice.as_slice r.deref

/-- `impl<'a, S> AsMutSlice for &'a mut S where S: ?Sized + AsMutSlice`:
`fn as_mut_slice(&mut self) { (**self).as_mut_slice() }`; a write through
the delegated view is a write through the referent's view. -/
instance instAsMutSliceMutRef {S : Type u} {E : Type v} [AsMutSlice S E] :
    AsMutSlice (MutRef S) E where
  as_mut_slice r := AsMutSlice.as_mut_slice r.deref
  write_at r i v := ⟨AsMutSlice.write_at r.deref i v⟩

/-- A call of `as_slice` with its state passing made explicit: the method
takes `&self`, so the receiver's state after the call is the state before. -/
def as_slice_st {S : Type u} {E : Type v} [AsSlice S E] (s : S) : List E × S :=
  (AsSlice.as_slice s, s)

/-- A call of `as_mut_slice` that obtains the view and performs no write
through it, with its state passing made explicit. -/
def as_mut_slice_st {S : Type u} {E : Type v} [AsMutSlice S E] (s : S) : List E × S :=
  (AsMutSlice.as_mut_slice s, s)

/-- Write-then-read consistency for a receiver type: writing element `i`
through the mutable view and then reading via `as_slice` observes the
written value, for any valid index `i`. -/
def WriteReadOK (S : Type u) (E : Type v) [AsMutSlice S E] : Prop :=
  ∀ (x : S) (i : Nat) (v : E), i < (AsSlice.as_slice x : List E).length →
    (AsSlice.as_slice (AsMutSlice.write_at x i v) : List E).get? i = some v

/-- The shapes of receivers built from the crate's impl matrix: slices,
arrays, and (nested) immutable and mutable references to them. -/
inductive Shape : Type where
  | slice : Shape
  | array : Shape
  | ref : Shape → Shape
  | mutref : Shape → Shape

/-- Which shapes the crate's declared impls give the `AsSlice` capability:
`[T]` and `[T; N]` directly; `&S` and `&mut S` exactly when `S` has it. -/
def hasAsSlice : Shape → Bool
  | .slice => true
  | .array => true
  | .ref s => hasAsSlice s
  | .mutref s => hasAsSlice s

/-- Which shapes the crate's declared impls give the `AsMutSlice`
capability: `[T]` and `[T; N]` directly; `&mut S` exactly when `S` has it;
`&S` never (the crate declares no `AsMutSlice` impl for `&S`). -/
def hasAsMutSlice : Shape → Bool
  | .slice => true
  | .array => true
  | .ref _ => false
  | .mutref s => hasAsMutSlice s

/-- If `i` is in bounds, `set` followed by `get?` at `i` yields the written
value. -/
theorem get_opt_set_self {T : Type u} :
    ∀ (l : List T) (i : Nat) (v : T), i < l.length → (l.set i v).get? i = some v
  | [], _, _, h => absurd h (Nat.not_lt_zero _)
  | _ :: _, 0, _, _ => rfl
  | _ :: tl, i + 1, v, h => get_opt_set_self tl i v (Nat.lt_of_succ_lt_succ h)

/-- C1: for every fixed-length array of length `n` and element type `T`,
`as_slice` returns a view of length exactly `n` whose elements equal the
array's elements in order. -/
theorem array_as_slice_length_and_elems {T : Type u} {n : Nat} (a : RustArray T n) :
    (AsSlice.as_slice a : List T).length = n ∧
    (AsSlice.as_slice a : List T) = a.data ∧
    ∀ i : Nat, (AsSlice.as_slice a : List T).get? i = a.data.get? i :=
  ⟨a.len_eq, rfl, fun _ => rfl⟩

/-- C2: for every dynamic sequence (slice) `s`, the view returned by
`as_slice` has the same length as `s`, agrees with `s` at every valid
index, and is the slice itself, unchanged. -/
theorem slice_as_slice_id {T : Type u} (s : List T) :
    (AsSlice.as_slice s : List T) = s ∧
    (AsSlice.as_slice s : List T).length = s.length ∧
    ∀ i : Nat, i < s.length → (AsSlice.as_slice s : List T).get? i = s.get? i :=
  ⟨rfl, rfl, fun _ _ => rfl⟩

/-- C3: write-then-read consistency holds for every receiver the crate
makes writable: slices, fixed-length arrays, and (by delegation, hence for
arbitrary nesting) mutable references to any receiver satisfying it; and
concretely, `as_slice [1,2,3] = [1,2,3]` and after writing `9` at index `1`
through `as_mut_slice`, `as_slice` returns `[1,9,3]`. -/
theorem write_then_read_consistent :
    (∀ T : Type u, WriteReadOK (List T) T) ∧
    (∀ (T : Type u) (n : Nat), WriteReadOK (RustArray T n) T) ∧
    (∀ (S : Type u) (E : Type v) [AsMutSlice S E],
      WriteReadOK S E → WriteReadOK (MutRef S) E) ∧
    ((AsSlice.as_slice ([1, 2, 3] : List Nat)) = [1, 2, 3] ∧
      (AsSlice.as_slice (AsMutSlice.write_at ([1, 2, 3] : List Nat) 1 9)) = [1, 9, 3]) := by
  refine ⟨?_, ?_, ?_, rfl, rfl⟩
  · intro T s i v h
    exact get_opt_set_self s i v h
  · intro T n a i v h
    exact get_opt_set_self a.data i v h
  · intro S E inst hok r i v h
    exact hok r.deref i v h

/-- C3 witness: the slice case at the concrete input `[1,2,3]`, index `1`,
value `9`. -/
theorem write_then_read_consistent_witness :
    (AsSlice.as_slice
      (AsMutSlice.write_at ([1, 2, 3] : List Nat) 1 9) : List Nat).get? 1 = some 9 :=
  write_then_read_consistent.{0, 0}.1 Nat [1, 2, 3] 1 9 (by decide)

/-- C4: for every receiver `r` with the readable capability, `as_slice`
called through an immutable reference (and through a mutable reference, and
through two levels of nested references) yields the same view as calling
`as_slice` on `r` directly. -/
theorem ref_delegation_equiv {S : Type u} {E : Type v} [AsSlice S E] (r : S) :
    (AsSlice.as_slice (Ref.mk r) : List E) = AsSlice.as_slice r ∧
    (AsSlice.as_slice (Ref.mk (Ref.mk r)) : List E) = AsSlice.as_slice r ∧
    (AsSlice.as_slice (MutRef.mk r) : List E) = AsSlice.as_slice r ∧
    (AsSlice.as_slice (Ref.mk (MutRef.mk r)) : List E) = AsSlice.as_slice r ∧
    (AsSlice.as_slice (MutRef.mk (MutRef.mk r)) : List E) = AsSlice.as_slice r :=
  ⟨rfl, rfl, rfl, rfl, rfl⟩

/-- C5: for every receiver `x` with the writable capability, writing
element `i` through the view obtained from a mutable reference to `x`
leaves the referent in exactly the state produced by the same write through
`x` directly; in particular the observable view afterwards is the same. -/
theorem mut_ref_delegation_equiv {S : Type u} {E : Type v} [AsMutSlice S E]
    (x : S) (i : Nat) (v : E) :
    (AsMutSlice.write_at (MutRef.mk x) i v).deref = AsMutSlice.write_at x i v ∧
    (AsSlice.as_slice (AsMutSlice.write_at (MutRef.mk x) i v) : List E) =
      AsSlice.as_slice (AsMutSlice.write_at x i v) :=
  ⟨rfl, rfl⟩

/-- C6: every receiver with the mutable capability also has the immutable
capability (over the same `Element` type, because `AsMutSlice S E` extends
`AsSlice S E`); at the level of the crate's declared impls every writable
shape is readable; and for each impl the crate supplies, the mutable view
exposes exactly the same contents (hence the same length and storage) as
the immutable view, a property preserved by mutable-reference delegation. -/
theorem mut_capability_implies_read_capability :
    (∀ (S : Type u) (E : Type v), AsMutSlice S E → Nonempty (AsSlice S E)) ∧
    (∀ s : Shape, hasAsMutSlice s = true → hasAsSlice s = true) ∧
    (∀ (T : Type u) (s : List T),
      (AsMutSlice.as_mut_slice s : List T) = AsSlice.as_slice s) ∧
    (∀ (T : Type u) (n : Nat) (a : RustArray T n),
      (AsMutSlice.as_mut_slice a : List T) = AsSlice.as_slice a) ∧
    (∀ (S : Type u) (E : Type v) [AsMutSlice S E],
      (∀ x : S, (AsMutSlice.as_mut_slice x : List E) = AsSlice.as_slice x) →
      ∀ r : MutRef S, (AsMutSlice.as_mut_slice r : List E) = AsSlice.as_slice r) := by
  refine ⟨fun _ _ i => ⟨i.toAsSlice⟩, ?_, fun _ _ => rfl, fun _ _ _ => rfl, ?_⟩
  · intro s h
    induction s with
    | slice => rfl
    | array => rfl
    | ref _ _ => exact absurd h (by simp [hasAsMutSlice])
    | mutref _ ih => exact ih h
  · intro S E inst hsame r
    exact hsame r.deref

/-- C6 witness: at the shape of slices and at the concrete slice `[1,2]`. -/
theorem mut_capability_implies_read_capability_witness :
    hasAsSlice Shape.slice = true ∧
    (AsMutSlice.as_mut_slice ([1, 2] : List Nat) : List Nat) =
      AsSlice.as_slice ([1, 2] : List Nat) :=
  ⟨mut_capability_implies_read_capability.{0, 0}.2.1 Shape.slice (by decide),
    mut_capability_implies_read_capability.{0, 0}.2.2.1 Nat [1, 2]⟩

/-- C7: the capability operations are total: for every receiver of every
instance, `as_slice` yields a view (the embedding is a total function, with
no failure path); in particular on the empty dynamic sequence it returns
the view of length `0`. -/
theorem as_slice_total_and_empty :
    (∀ (S : Type u) (E : Type v) (inst : AsSlice S E) (s : S),
      ∃ view : List E, @AsSlice.as_slice S E inst s = view) ∧
    (∀ T : Type u,
      (AsSlice.as_slice ([] : List T) : List T) = [] ∧
      (AsSlice.as_slice ([] : List T) : List T).length = 0) :=
  ⟨fun _ _ _ _ => ⟨_, rfl⟩, fun _ => ⟨rfl, rfl⟩⟩

/-- C8: obtaining a view has no side effect: a call of `as_slice` leaves
the receiver's state unchanged, and a call of `as_mut_slice` with no write
through the returned view leaves the receiver's state, and hence its
readable elements, unchanged. -/
theorem view_calls_are_side_effect_free :
    (∀ (S : Type u) (E : Type v) [AsSlice S E] (s : S), (as_slice_st s).2 = s) ∧
    (∀ (S : Type u) (E : Type v) [AsMutSlice S E] (s : S),
      (as_mut_slice_st s).2 = s ∧
      ((as_slice_st (as_mut_slice_st s).2).1 : List E) = (as_slice_st s).1) :=
  ⟨fun _ _ _ _ => rfl, fun _ _ _ _ => ⟨rfl, rfl⟩⟩

/-- C9: in the crate's declared impl matrix, an immutable reference never
has the writable capability, even when its referent does; an immutable
reference to a readable receiver is readable; and a mutable reference to a
writable receiver has both capabilities. -/
theorem immutable_ref_never_writable (s : Shape) :
    hasAsMutSlice (Shape.ref s) = false ∧
    (hasAsSlice s = true → hasAsSlice (Shape.ref s) = true) ∧
    (hasAsMutSlice s = true →
      hasAsMutSlice (Shape.mutref s) = true ∧ hasAsSlice (Shape.mutref s) = true) := by
  refine ⟨rfl, fun h => h, fun h => ⟨h, ?_⟩⟩
  show hasAsSlice s = true
  induction s with
  | slice => rfl
  | array => rfl
  | ref _ _ => exact absurd h (by simp [hasAsMutSlice])
  | mutref _ ih => exact ih h

/-- C9 witness: at the shape `&[T]` / `&mut [T]` (references to a slice). -/
theorem immutable_ref_never_writable_witness :
    hasAsMutSlice (Shape.ref Shape.slice) = false ∧
    hasAsSlice (Shape.ref Shape.slice) = true ∧
    hasAsMutSlice (Shape.mutref Shape.slice) = true :=
  ⟨(immutable_ref_never_writable Shape.slice).1,
    (immutable_ref_never_writable Shape.slice).2.1 (by decide),
    ((immutable_ref_never_writable Shape.slice).2.2 (by decide)).1⟩

/-- C10: `as_slice` is deterministic: two successive calls on the same
receiver return the same view and leave the state unchanged; and for the
primitive impls the result is exactly the receiver's current contents, so
it depends on nothing else. -/
theorem as_slice_deterministic :
    (∀ (S : Type u) (E : Type v) [AsSlice S E] (s : S),
      (as_slice_st s).1 = (as_slice_st (as_slice_st s).2).1 ∧
      (as_slice_st (as_slice_st s).2).2 = s) ∧
    (∀ (T : Type u) (s : List T), (AsSlice.as_slice s : List T) = s) ∧
    (∀ (T : Type u) (n : Nat) (a : RustArray T n),
      (AsSlice.as_slice a : List T) = a.data) :=
  ⟨fun _ _ _ _ => ⟨rfl, rfl⟩, fun _ _ => rfl, fun _ _ _ => rfl⟩
